import Mathlib

/-!
Verification development for the pyisam table/record abstraction layer.

The definitions below embed, in Lean, the Python code of the repository:
  * `src/pyisam/error.py`            — the exception class hierarchy;
  * `src/pyisam/backend/ctypes/ifisam.py` — the adapter error lookup `strerror`;
  * `src/utils/bldlibisam.py`        — the CFFI builders (`max_key_parts`,
    the `keydesc` templates, `_copy_on_change`);
  * `src/pyisam/__main__.py`         — driver usage of the cursor `read` loop.
Parts of the repository that the spec describes but whose code is not in the
sources at hand (the record buffer codec, the key descriptor builder, the
cursor read state machine) are modelled from the spec, and each such
definition is marked `Modelled from the spec:` in its doc comment.
-/

namespace PyIsam

/-!  Exception class hierarchy, from src/pyisam/error.py.
Each Python `class C(P)` becomes a constructor with `parentClass C = some P`;
the Python builtin `Exception` is the root. -/

inductive ExcClass where
  | Exception
  | IsamException
  | IsamNotOpen
  | IsamOpened
  | IsamNotWritable
  | IsamRecordMutable
  | IsamFunctionFailed
  | IsamNoRecord
  | IsamNoIndex
  deriving DecidableEq, Fintype

/-- Direct superclass of each exception class, exactly as declared in
src/pyisam/error.py (`IsamNotWritable` subclasses `IsamNotOpen`; every other
package exception subclasses `IsamException` directly). -/
def parentClass : ExcClass → Option ExcClass
  | .Exception          => none
  | .IsamException      => some .Exception
  | .IsamNotOpen        => some .IsamException
  | .IsamOpened         => some .IsamException
  | .IsamNotWritable    => some .IsamNotOpen
  | .IsamRecordMutable  => some .IsamException
  | .IsamFunctionFailed => some .IsamException
  | .IsamNoRecord       => some .IsamException
  | .IsamNoIndex        => some .IsamException

/-- Reflexive-transitive subclass test along `parentClass`, with enough fuel
to cover the whole (depth-4) hierarchy. -/
def subclassAux : Nat → ExcClass → ExcClass → Bool
  | 0, c, d => c == d
  | n + 1, c, d =>
    c == d ||
      (match parentClass c with
       | some p => subclassAux n p d
       | none => false)

/-- The test `subclassOf c d` holds when class `c` equals `d` or derives from it. -/
def subclassOf (c d : ExcClass) : Bool := subclassAux 8 c d

/-- A Python `except H:` handler catches a raised exception of class `r`
exactly when `r` is `H` or a subclass of it. -/
def handlerCatches (handler raised : ExcClass) : Bool := subclassOf raised handler

/-- The concrete exception classes the error module declares (every class of
src/pyisam/error.py other than the shared base `IsamException`). -/
def isamConcreteClasses : List ExcClass :=
  [.IsamNotOpen, .IsamOpened, .IsamNotWritable, .IsamRecordMutable,
   .IsamFunctionFailed, .IsamNoRecord, .IsamNoIndex]

/-- The nine error kinds named by the spec taxonomy (spec section 7). -/
def specErrorKinds : List String :=
  ["SchemaError", "EncodingError", "NotOpenError", "OpenedError",
   "NotWritableError", "NoRecordError", "DuplicateKeyError",
   "IndexMissingError", "EngineError"]

/-!  Rendering `IsamFunctionFailed.__str__`, from src/pyisam/error.py lines 19-26.
The Python source is
  `return '...A...' if self.errstr is None else '...B...'.format(self)`
and conditional-expression precedence binds `.format(self)` to the `else`
branch only, so the `errstr is None` branch returns the template literal
itself, unformatted.  The embedding reproduces exactly that. -/

/-- Fields stored by `IsamFunctionFailed.__init__`: table name, raw engine
error number, and the optional decoded error text. -/
structure FuncFailedExc where
  tabname : String
  errno : Int
  errstr : Option String
  deriving DecidableEq

/-- The `else` branch of `IsamFunctionFailed.__str__`:
`'\x7b0.tabname\x7d: \x7b0.errstr\x7d (\x7b0.errno\x7d)'.format(self)`. -/
def formatFuncFailed (e : FuncFailedExc) (s : String) : String :=
  e.tabname ++ ": " ++ s ++ " (" ++ toString e.errno ++ ")"

/-- The method `IsamFunctionFailed.__str__` as written: when `errstr` is `None` the
conditional expression yields the *unformatted* template literal. -/
def funcFailedStr (e : FuncFailedExc) : String :=
  match e.errstr with
  | none => "\x7b0.tabname\x7d: \x7b0.errno\x7d"
  | some s => formatFuncFailed e s

/-!  Adapter error lookup, from src/pyisam/backend/ctypes/ifisam.py lines
50-57.  `self._vld_errno` (the engine's declared valid error-code range) and
the engine globals `iserrno` / `is_errlist` become fields of an engine-state
structure; `os.strerror` (the host's generic message) is a parameter. -/

/-- Engine-side state read by `strerror`: the current global error number
`iserrno`, the declared valid range `_vld_errno = (lo, hi)`, and the
engine's error message table `is_errlist`. -/
structure IsamEngineState where
  iserrno : Int
  vld_lo : Int
  vld_hi : Int
  is_errlist : List String
  deriving DecidableEq

/-- Helper `ISAM_str` (src/pyisam/utils) converts engine bytes to a host string; on
the already-string embedding it is the identity. -/
def ISAM_str (s : String) : String := s

/-- Method `ISAMifisamMixin.strerror(self, errcode=None)`:
defaults `errcode` to `iserrno`, computes `errnum = errcode - _vld_errno[0]`,
returns the engine's `is_errlist[errnum]` when
`_vld_errno[0] <= errcode < _vld_errno[1]`, else `os.strerror(errcode)`. -/
def strerror (os_strerror : Int → String) (e : IsamEngineState)
    (errcode : Option Int) : String :=
  let c : Int :=
    match errcode with
    | none => e.iserrno
    | some v => v
  let errnum : Int := c - e.vld_lo
  if e.vld_lo ≤ c ∧ c < e.vld_hi then
    ISAM_str (e.is_errlist.getD errnum.toNat "")
  else
    os_strerror c

/-- A concrete engine state used to witness the `strerror` theorems. -/
def engineEx : IsamEngineState :=
  { iserrno := 101, vld_lo := 100, vld_hi := 102,
    is_errlist := ["EDUPL text", "ENOTOPEN text"] }

/-- A concrete host `os.strerror` used to witness the `strerror` theorems. -/
def osErrEx : Int → String := fun c => "Unknown error " ++ toString c

/-!  Builder, from src/utils/bldlibisam.py.
`CFFI_Builder.max_key_parts = 8` is shared, unoverridden, by all three engine
family builders, and each family's `isam_h_code` template declares
`struct keypart k_part[{self.max_key_parts}]` in its `keydesc`. -/

/-- Attribute `CFFI_Builder.max_key_parts` (src/utils/bldlibisam.py line 100). -/
def max_key_parts : Nat := 8

/-- The three engine families the builder supports. -/
inductive EngineFamily where
  | ifisam
  | vbisam
  | disam
  deriving DecidableEq, Fintype

/-- Size of the `k_part` array in the `struct keydesc` of each family's
`isam_h_code` template: every template is formatted with
`{self.max_key_parts}`, and no subclass overrides `max_key_parts`. -/
def k_part_size : EngineFamily → Nat
  | .ifisam => max_key_parts
  | .vbisam => max_key_parts
  | .disam => max_key_parts

/-!  Method `Builder._copy_on_change`, from src/utils/bldlibisam.py lines 58-70.
The filesystem is an association list from file names to (content bytes,
mode); the SHA-256 digest function is a parameter (it comes from the host's
`hashlib`, outside this repository), used only through digest equality, as
the source does. -/

/-- File contents and permission mode, the two attributes `_copy_on_change`
transfers (`shutil.copyfile` then `shutil.copymode`). -/
abbrev FileData := List Nat × Nat

/-- A filesystem as an association list from names to file data. -/
abbrev FStore := List (String × FileData)

/-- Look a file up by name (first match wins). -/
def fsFind : FStore → String → Option FileData
  | [], _ => none
  | (n, d) :: rest, k => if n = k then some d else fsFind rest k

/-- Overwrite (or create) the file named `k` with data `d`. -/
def fsSet (fs : FStore) (k : String) (d : FileData) : FStore := (k, d) :: fs

/-- Exception `BuildException`, raised by the builder with a message
(src/utils/bldlibisam.py lines 19-24). -/
inductive BuildExc where
  | buildException (msg : String)
  deriving DecidableEq

/-- Method `Builder._copy_on_change(srcfile, dstfile)`: raise `BuildException` when
the source file is missing; hash the source; when the destination exists and
its hash equals the source's, do nothing; otherwise copy the file contents
and mode over the destination.  The returned Bool records whether a copy was
performed (`changed` in the source). -/
def copy_on_change (hash : List Nat → List Nat) (fs : FStore)
    (srcfile dstfile : String) : Except BuildExc (FStore × Bool) :=
  match fsFind fs srcfile with
  | none => .error (.buildException "No source file to copy")
  | some (c, m) =>
    let changed : Bool :=
      match fsFind fs dstfile with
      | some (c2, _) => decide (hash c ≠ hash c2)
      | none => true
    if changed then .ok (fsSet fs dstfile (c, m), true) else .ok (fs, false)

/-- A concrete digest function used in witnesses (the theorems hold for every
digest function). -/
def hashEx : List Nat → List Nat := fun l => [l.length % 256, l.sum % 256]

/-- A concrete filesystem used in witnesses. -/
def fsEx : FStore := [("isam.h", ([104, 105], 6))]

/-!  Column model and record buffer codec.
The codec's code is not among the sources at hand, so it is modelled from the
spec (section 4.3): each value is written at its column's frozen offset in
its kind's fixed binary form — text space-padded/truncated to the column
width, integers in engine byte order, decimals packed two digits per byte —
and `decode` is the inverse, total over any correctly-sized buffer. -/

/-- Modelled from the spec: the value kinds of section 3 — fixed text,
integer, packed decimal (the record codec source is not in the sources at
hand). -/
inductive ColKind where
  | text
  | uint
  | dec
  deriving DecidableEq

/-- Modelled from the spec: a column with unique name, byte width and value
kind (spec section 3). -/
structure Column where
  name : String
  width : Nat
  kind : ColKind
  deriving DecidableEq

/-- Modelled from the spec: a TableDefinition — name plus ordered columns;
the frozen offsets are the cumulative widths, and the record length is their
sum (spec section 3). -/
structure TableDefinition where
  name : String
  columns : List Column
  deriving DecidableEq

/-- Modelled from the spec: a typed field value matching a column kind. -/
inductive Value where
  | vtext (s : List Nat)
  | vint (n : Nat)
  | vdec (ds : List Nat)
  deriving DecidableEq

/-- Fixed record length: the sum of the column widths (spec section 3). -/
def recordLength (cols : List Column) : Nat := (cols.map (fun c => c.width)).sum

/-- Little-endian encoding of `n` into exactly `w` bytes. -/
def natToLE : Nat → Nat → List Nat
  | 0, _ => []
  | w + 1, n => n % 256 :: natToLE w (n / 256)

/-- Little-endian decoding of a byte list. -/
def leToNat : List Nat → Nat
  | [] => 0
  | b :: bs => b + 256 * leToNat bs

/-- Pack decimal digits two per byte (high nibble first). -/
def packBCD : List Nat → List Nat
  | d1 :: d2 :: rest => (d1 * 16 + d2) :: packBCD rest
  | [d] => [d * 16]
  | [] => []

/-- Unpack packed-decimal bytes back into digits. -/
def unpackBCD : List Nat → List Nat
  | b :: rest => b / 16 :: b % 16 :: unpackBCD rest
  | [] => []

/-- True when the byte list does not end in the pad byte 32 (space), so that
space-padding loses no information. -/
def noTrailSpace (s : List Nat) : Bool :=
  match s.reverse with
  | [] => true
  | b :: _ => b != 32

/-- Modelled from the spec: a value assignment is well-formed for its column
when it fits the column's fixed binary form without loss — text no longer
than the width and not space-terminated, integers within the width's range,
decimals exactly `2 * width` digits, each below ten. -/
def wellFormedField (c : Column) (v : Value) : Bool :=
  match c.kind, v with
  | .text, .vtext s => decide (s.length ≤ c.width) && noTrailSpace s
  | .uint, .vint n => decide (n < 256 ^ c.width)
  | .dec, .vdec ds =>
    decide (ds.length = 2 * c.width) && ds.all (fun d => decide (d < 10))
  | _, _ => false

/-- Modelled from the spec: encode one value into its column's fixed-width
byte form — text space-padded/truncated to the width, integers in engine
(little-endian) byte order, decimals packed (spec section 4.3).  A value of
the wrong kind yields zero filler; `wellFormedField` excludes that case. -/
def encodeField (c : Column) (v : Value) : List Nat :=
  match c.kind, v with
  | .text, .vtext s => s.take c.width ++ List.replicate (c.width - s.length) 32
  | .uint, .vint n => natToLE c.width n
  | .dec, .vdec ds => packBCD ds
  | _, _ => List.replicate c.width 0

/-- Modelled from the spec: decode one column's bytes back into a typed
value — the inverse of `encodeField`, total on any byte list. -/
def decodeField (c : Column) (bytes : List Nat) : Value :=
  match c.kind with
  | .text => .vtext ((bytes.reverse.dropWhile (fun b => b == 32)).reverse)
  | .uint => .vint (leToNat bytes)
  | .dec => .vdec (unpackBCD bytes)

/-- Modelled from the spec: `encode(values)` writes each value at its frozen
offset, i.e. concatenates the per-column encodings in column order. -/
def encodeRecord : List Column → List Value → List Nat
  | c :: cs, v :: vs => encodeField c v ++ encodeRecord cs vs
  | _, _ => []

/-- Modelled from the spec: `decode(buffer)` reads each column's slice of
the buffer in turn; total over any byte list. -/
def decodeRecord : List Column → List Nat → List Value
  | [], _ => []
  | c :: cs, buf => decodeField c (buf.take c.width) :: decodeRecord cs (buf.drop c.width)

/-- A value assignment is well-formed for a column list when it has one
well-formed value per column. -/
def wellFormedRecord : List Column → List Value → Bool
  | [], [] => true
  | c :: cs, v :: vs => wellFormedField c v && wellFormedRecord cs vs
  | _, _ => false

/-- The codec's `encode` over a frozen TableDefinition. -/
def encode (t : TableDefinition) (vs : List Value) : List Nat :=
  encodeRecord t.columns vs

/-- The codec's `decode` over a frozen TableDefinition. -/
def decode (t : TableDefinition) (buf : List Nat) : List Value :=
  decodeRecord t.columns buf

/-- A concrete frozen table definition used in witnesses. -/
def tableEx : TableDefinition :=
  { name := "decomp",
    columns := [{ name := "comp", width := 3, kind := .text },
                { name := "timeup", width := 2, kind := .uint },
                { name := "price", width := 1, kind := .dec }] }

/-- A concrete well-formed value assignment for `tableEx`. -/
def valuesEx : List Value := [.vtext [97, 98], .vint 513, .vdec [1, 2]]

/-!  Key descriptor builder.
Its code is not among the sources at hand; modelled from the spec (section
4.2): a pure function from a frozen TableDefinition and an Index to a
KeyDescriptor of (offset, length, type-code) triples in declaration order,
failing with SchemaError when the part count or total key length exceeds the
engine ceilings.  The part-count ceiling is the builder's `max_key_parts`
(the `k_part` array bound); the byte-length ceiling is engine-specific and a
parameter. -/

/-- Modelled from the spec: one key part — a column name with an optional
sub-length (spec section 3, "Index"). -/
structure IndexPart where
  col : String
  sublen : Option Nat
  deriving DecidableEq

/-- Modelled from the spec: an index — a name plus ordered key parts. -/
structure TableIndex where
  name : String
  parts : List IndexPart
  deriving DecidableEq

/-- One compiled (offset, length, type-code) triple, mirroring the builder's
`struct keypart` fields `kp_start`, `kp_leng`, `kp_type`. -/
structure KeyPart where
  kp_start : Nat
  kp_leng : Nat
  kp_type : Nat
  deriving DecidableEq

/-- A compiled key descriptor, mirroring the builder's `struct keydesc`
fields `k_nparts`, `k_part`, `k_len`. -/
structure KeyDesc where
  k_nparts : Nat
  k_part : List KeyPart
  k_len : Nat
  deriving DecidableEq

/-- The SchemaError cases of key compilation (spec sections 4.1-4.2). -/
inductive SchemaErr where
  | unknownColumn (name : String)
  | tooManyParts
  | keyTooLong
  deriving DecidableEq

/-- Frozen offset and definition of the named column: offsets are the
cumulative widths of the preceding columns (spec section 3). -/
def colOffset : List Column → String → Option (Nat × Column)
  | [], _ => none
  | c :: cs, n =>
    if c.name = n then some (0, c)
    else (colOffset cs n).map (fun p => (p.1 + c.width, p.2))

/-- Modelled from the spec: deterministic per-kind type code (the exact
engine values are engine-specific, spec section 9). -/
def typeCode : ColKind → Nat
  | .text => 0
  | .uint => 1
  | .dec => 2

/-- Modelled from the spec: resolve one key part to its frozen offset and
width (or declared sub-length, bounded by the column's width), failing with
SchemaError when the referenced column is unknown. -/
def resolvePart (cols : List Column) (p : IndexPart) : Except SchemaErr KeyPart :=
  match colOffset cols p.col with
  | none => .error (.unknownColumn p.col)
  | some (off, c) =>
    .ok { kp_start := off, kp_leng := min (p.sublen.getD c.width) c.width,
          kp_type := typeCode c.kind }

/-- Resolve every part of an index, in declaration order. -/
def resolveParts (cols : List Column) : List IndexPart → Except SchemaErr (List KeyPart)
  | [] => .ok []
  | p :: ps =>
    match resolvePart cols p with
    | .error e => .error e
    | .ok k =>
      match resolveParts cols ps with
      | .error e => .error e
      | .ok ks => .ok (k :: ks)

/-- Modelled from the spec: compile an index into a KeyDescriptor, failing
with SchemaError when the part count exceeds `max_key_parts` or the total
key length exceeds the engine's byte ceiling (spec section 4.2). -/
def compileIndex (cols : List Column) (idx : TableIndex) (maxKeyLen : Nat) :
    Except SchemaErr KeyDesc :=
  if idx.parts.length > max_key_parts then .error .tooManyParts
  else
    match resolveParts cols idx.parts with
    | .error e => .error e
    | .ok ks =>
      if (ks.map (fun k => k.kp_leng)).sum > maxKeyLen then .error .keyTooLong
      else .ok { k_nparts := ks.length, k_part := ks,
                 k_len := (ks.map (fun k => k.kp_leng)).sum }

/-- Total resolved key length of an index over a column list, when all its
parts resolve. -/
def indexKeyLength (cols : List Column) (idx : TableIndex) : Option Nat :=
  match resolveParts cols idx.parts with
  | .error _ => none
  | .ok ks => some ((ks.map (fun k => k.kp_leng)).sum)

/-- A concrete nine-part index used in witnesses. -/
def wideIndexEx : TableIndex :=
  { name := "toowide", parts := List.replicate 9 { col := "comp", sublen := none } }

/-!  Table access cursor.
The cursor code is not among the sources at hand (only its driver,
`dump_record` in src/pyisam/__main__.py); modelled from the spec (sections
4.4-4.5): an open cursor owns the engine rows in index order and a current
position; a keyed read positions at the first matching row, a continuation
read (no index named) streams forward from the current position; a read that
finds nothing fails NoRecordError and leaves the position unchanged, a
successful read decodes the buffer and advances the position. -/

/-- Cursor read errors (NoRecordError is the one the claims exercise; the
other adapter errors keep it a genuine choice). -/
inductive ReadErr where
  | noRecord
  | notOpen
  | funcFailed (errno : Int)
  deriving DecidableEq

/-- Modelled from the spec: an open cursor — the table's columns, the rows
(record buffers) in the active index order, and the current position. -/
structure ISAMcursor where
  columns : List Column
  rows : List (List Nat)
  pos : Option Nat
  deriving DecidableEq

/-- Modelled from the spec: a keyed read — position at the first row the
search predicate matches, decode its buffer and advance the position there;
with no match, fail NoRecordError and leave the cursor unchanged. -/
def readKeyed (c : ISAMcursor) (p : List Nat → Bool) :
    Except ReadErr (List Value) × ISAMcursor :=
  match c.rows.findIdx? p with
  | some i =>
    (.ok (decodeRecord c.columns (c.rows.getD i [])), { c with pos := some i })
  | none => (.error .noRecord, c)

/-- Index of the row a continuation read targets: the row after the current
position (the first row when no position is held yet). -/
def nextIdx (c : ISAMcursor) : Nat :=
  match c.pos with
  | none => 0
  | some i => i + 1

/-- Modelled from the spec: a continuation read (`read()` with no index
name) — keep streaming forward from the current position; past the last row
it fails NoRecordError and leaves the cursor unchanged. -/
def readCont (c : ISAMcursor) : Except ReadErr (List Value) × ISAMcursor :=
  if nextIdx c < c.rows.length then
    (.ok (decodeRecord c.columns (c.rows.getD (nextIdx c) [])),
     { c with pos := some (nextIdx c) })
  else (.error .noRecord, c)

/-- Modelled from the spec: a `same`-mode read — re-read the row at the
current position without moving. -/
def readSame (c : ISAMcursor) : Except ReadErr (List Value) × ISAMcursor :=
  match c.pos with
  | some i =>
    if i < c.rows.length then
      (.ok (decodeRecord c.columns (c.rows.getD i [])), c)
    else (.error .noRecord, c)
  | none => (.error .noRecord, c)

/-- A concrete cursor positioned on the last row, used in witnesses. -/
def cursorEx : ISAMcursor :=
  { columns := tableEx.columns,
    rows := [encodeRecord tableEx.columns valuesEx],
    pos := some 0 }

/-!  Theorems. -/

/-- Claim C4: `IsamNoRecord` and `IsamFunctionFailed` are distinct exception
types, neither a subclass of the other, so a handler for one never catches
the other. -/
theorem C4_norecord_enginefailed_distinct :
    ExcClass.IsamNoRecord ≠ ExcClass.IsamFunctionFailed ∧
    subclassOf .IsamNoRecord .IsamFunctionFailed = false ∧
    subclassOf .IsamFunctionFailed .IsamNoRecord = false ∧
    handlerCatches .IsamNoRecord .IsamFunctionFailed = false ∧
    handlerCatches .IsamFunctionFailed .IsamNoRecord = false := by
  decide

/-- Claim C8: `IsamNotWritable` is declared a subclass of `IsamNotOpen`
(while remaining a distinct class), so a handler catching `IsamNotOpen` also
catches every raised exception of a class deriving from `IsamNotWritable`. -/
theorem C8_notwritable_is_notopen :
    subclassOf .IsamNotWritable .IsamNotOpen = true ∧
    ExcClass.IsamNotWritable ≠ ExcClass.IsamNotOpen ∧
    (∀ raised : ExcClass, subclassOf raised .IsamNotWritable = true →
      handlerCatches .IsamNotOpen raised = true) := by
  decide

/-- Witness for C8 at the concrete class `IsamNotWritable` itself. -/
theorem C8_notwritable_is_notopen_witness :
    handlerCatches .IsamNotOpen .IsamNotWritable = true :=
  C8_notwritable_is_notopen.2.2 .IsamNotWritable (by decide)

/-- Claim C5 (code bug): with `errstr = None`, `IsamFunctionFailed.__str__`
returns the template literal unformatted — conditional-expression precedence
binds `.format(self)` to the `else` branch only — so the rendering contains
neither the table name nor the raw code; with `errstr` present the formatted
rendering does contain both. -/
theorem C5_funcfailed_str_unformatted :
    funcFailedStr { tabname := "decomp", errno := 101, errstr := none } =
      "\x7b0.tabname\x7d: \x7b0.errno\x7d" ∧
    ¬ "decomp".data <:+: (funcFailedStr
      { tabname := "decomp", errno := 101, errstr := none }).data ∧
    ¬ "101".data <:+: (funcFailedStr
      { tabname := "decomp", errno := 101, errstr := none }).data ∧
    "decomp".data <:+: (funcFailedStr
      { tabname := "decomp", errno := 101, errstr := some "Duplicate record" }).data ∧
    "101".data <:+: (funcFailedStr
      { tabname := "decomp", errno := 101, errstr := some "Duplicate record" }).data := by
  decide

/-- Claim C6 counterexample: the spec names nine error kinds, but the error
module declares only seven concrete exception classes, so no injective
assignment of a distinct declared class to each of the nine kinds exists. -/
theorem C6_taxonomy_counterexample :
    ¬ ∃ assign : Fin specErrorKinds.length → ExcClass,
        Function.Injective assign ∧ ∀ i, assign i ∈ isamConcreteClasses := by
  rintro ⟨assign, hinj, hmem⟩
  have hcard : isamConcreteClasses.toFinset.card = 7 := by decide
  have hle : (Finset.univ : Finset (Fin specErrorKinds.length)).card ≤
      isamConcreteClasses.toFinset.card :=
    Finset.card_le_card_of_injOn assign
      (fun i _ => List.mem_toFinset.mpr (hmem i))
      (fun a _ b _ h => hinj h)
  rw [Finset.card_univ, Fintype.card_fin, hcard] at hle
  exact absurd hle (by decide)

/-- Claim C6 as amended: the error module declares exactly seven pairwise
distinct concrete exception classes, each deriving from the shared base
`IsamException` (so every failure raised through them is a typed, catchable
result), which covers at most seven of the spec's nine kinds. -/
theorem C6_taxonomy_amended :
    isamConcreteClasses.Nodup ∧
    isamConcreteClasses.length = 7 ∧
    isamConcreteClasses.all (fun c => subclassOf c .IsamException) = true ∧
    (ExcClass.IsamException ∉ isamConcreteClasses) ∧
    specErrorKinds.length = 9 := by
  decide

/-- Claim C1: `strerror` on a code inside the engine's declared valid range
`[vld_lo, vld_hi)` returns the engine's own message, the error-list entry at
index `code - vld_lo`; on a code outside the range it returns the host's
generic `os.strerror` message for that code. -/
theorem C1_strerror_lookup (os_err : Int → String) (e : IsamEngineState) (c : Int) :
    (e.vld_lo ≤ c → c < e.vld_hi →
      strerror os_err e (some c) =
        ISAM_str (e.is_errlist.getD (c - e.vld_lo).toNat "")) ∧
    (¬ (e.vld_lo ≤ c ∧ c < e.vld_hi) →
      strerror os_err e (some c) = os_err c) := by
  constructor
  · intro h1 h2
    unfold strerror
    rw [if_pos ⟨h1, h2⟩]
  · intro h
    unfold strerror
    rw [if_neg h]

/-- Witness for C1 at a concrete engine: code 101 inside the range
`[100, 102)` yields the second engine message, code 5 outside it yields the
host message. -/
theorem C1_strerror_lookup_witness :
    strerror osErrEx engineEx (some 101) = "ENOTOPEN text" ∧
    strerror osErrEx engineEx (some 5) = osErrEx 5 := by
  constructor
  · rw [(C1_strerror_lookup osErrEx engineEx 101).1 (by decide) (by decide)]
    rfl
  · exact (C1_strerror_lookup osErrEx engineEx 5).2 (by decide)

/-- Claim C9: calling `strerror` with no error code decodes the engine's
current global `iserrno`, so `strerror()` equals `strerror(iserrno)`. -/
theorem C9_strerror_defaults_iserrno (os_err : Int → String) (e : IsamEngineState) :
    strerror os_err e none = strerror os_err e (some e.iserrno) := rfl

/-- Successful part resolution yields one compiled triple per declared part. -/
theorem resolveParts_length (cols : List Column) :
    ∀ ps ks, resolveParts cols ps = .ok ks → ks.length = ps.length := by
  intro ps
  induction ps with
  | nil =>
    intro ks h
    unfold resolveParts at h
    cases h
    rfl
  | cons p ps ih =>
    intro ks h
    unfold resolveParts at h
    cases hp : resolvePart cols p with
    | error e => rw [hp] at h; cases h
    | ok k =>
      rw [hp] at h
      cases hps : resolveParts cols ps with
      | error e => rw [hps] at h; cases h
      | ok ks2 =>
        rw [hps] at h
        cases h
        simp [ih ks2 hps]

/-- Claim C7: the `k_part` array of a compiled key descriptor is bounded by
`max_key_parts = 8`, the same ceiling for all three engine families, and
compiling an index whose part count or total key length exceeds the engine
ceilings fails with a SchemaError. -/
theorem C7_key_ceilings :
    (∀ f : EngineFamily, k_part_size f = max_key_parts ∧ k_part_size f = 8) ∧
    (∀ cols idx maxKeyLen, idx.parts.length > max_key_parts →
      compileIndex cols idx maxKeyLen = .error .tooManyParts) ∧
    (∀ cols idx maxKeyLen L, indexKeyLength cols idx = some L → L > maxKeyLen →
      ∃ e2, compileIndex cols idx maxKeyLen = .error e2) ∧
    (∀ cols idx maxKeyLen kd, compileIndex cols idx maxKeyLen = .ok kd →
      kd.k_part.length ≤ max_key_parts ∧ kd.k_nparts = kd.k_part.length) := by
  refine ⟨?_, ?_, ?_, ?_⟩
  · intro f
    cases f <;> exact ⟨rfl, rfl⟩
  · intro cols idx m h
    unfold compileIndex
    rw [if_pos h]
  · intro cols idx m L hL hgt
    by_cases hp : idx.parts.length > max_key_parts
    · refine ⟨.tooManyParts, ?_⟩
      unfold compileIndex
      rw [if_pos hp]
    · unfold indexKeyLength at hL
      cases hres : resolveParts cols idx.parts with
      | error e => rw [hres] at hL; cases hL
      | ok ks =>
        rw [hres] at hL
        have hLs : (ks.map (fun k => k.kp_leng)).sum = L := by
          simpa using hL
        refine ⟨.keyTooLong, ?_⟩
        unfold compileIndex
        rw [if_neg hp, hres]
        simp only []
        rw [if_pos (hLs ▸ hgt)]
  · intro cols idx m kd hok
    unfold compileIndex at hok
    by_cases hp : idx.parts.length > max_key_parts
    · rw [if_pos hp] at hok; cases hok
    · rw [if_neg hp] at hok
      cases hres : resolveParts cols idx.parts with
      | error e => rw [hres] at hok; cases hok
      | ok ks =>
        rw [hres] at hok
        simp only [] at hok
        by_cases hk : (ks.map (fun k => k.kp_leng)).sum > m
        · rw [if_pos hk] at hok; cases hok
        · rw [if_neg hk] at hok
          cases hok
          refine ⟨?_, rfl⟩
          rw [resolveParts_length cols idx.parts ks hres]
          exact Nat.le_of_not_lt hp

/-- Witness for C7: a nine-part index exceeds the shared eight-part ceiling
and compilation fails with the part-count SchemaError. -/
theorem C7_key_ceilings_witness :
    compileIndex tableEx.columns wideIndexEx 100 = .error .tooManyParts ∧
    k_part_size .ifisam = 8 :=
  ⟨C7_key_ceilings.2.1 tableEx.columns wideIndexEx 100 (by decide),
   (C7_key_ceilings.1 .ifisam).2⟩

/-- Setting a file makes it the one found under its name. -/
theorem fsFind_fsSet_same (fs : FStore) (k : String) (d : FileData) :
    fsFind (fsSet fs k d) k = some d := by
  simp [fsSet, fsFind]

/-- Setting a file leaves lookups of other names unchanged. -/
theorem fsFind_fsSet_other (fs : FStore) (k k2 : String) (d : FileData)
    (h : k2 ≠ k) : fsFind (fsSet fs k d) k2 = fsFind fs k2 := by
  simp only [fsSet, fsFind]
  rw [if_neg (fun he => h he.symm)]

/-- Method `_copy_on_change` raises `BuildException` when the source is missing. -/
theorem copy_error_when_no_source (hash : List Nat → List Nat) (fs : FStore)
    (src dst : String) (h : fsFind fs src = none) :
    copy_on_change hash fs src dst =
      .error (.buildException "No source file to copy") := by
  unfold copy_on_change
  rw [h]

/-- Method `_copy_on_change` performs no write when the destination exists with the
same digest as the source. -/
theorem copy_skips_when_hash_equal (hash : List Nat → List Nat) (fs : FStore)
    (src dst : String) (c : List Nat) (m : Nat) (c2 : List Nat) (m2 : Nat)
    (hsrc : fsFind fs src = some (c, m)) (hdst : fsFind fs dst = some (c2, m2))
    (heq : hash c = hash c2) :
    copy_on_change hash fs src dst = .ok (fs, false) := by
  unfold copy_on_change
  rw [hsrc]
  simp only []
  rw [hdst]
  simp [heq]

/-- Method `_copy_on_change` copies when the destination is missing. -/
theorem copy_writes_when_missing (hash : List Nat → List Nat) (fs : FStore)
    (src dst : String) (c : List Nat) (m : Nat)
    (hsrc : fsFind fs src = some (c, m)) (hdst : fsFind fs dst = none) :
    copy_on_change hash fs src dst = .ok (fsSet fs dst (c, m), true) := by
  unfold copy_on_change
  rw [hsrc]
  simp only []
  rw [hdst]
  simp

/-- Method `_copy_on_change` copies when the destination's digest differs. -/
theorem copy_writes_when_hash_differs (hash : List Nat → List Nat) (fs : FStore)
    (src dst : String) (c : List Nat) (m : Nat) (c2 : List Nat) (m2 : Nat)
    (hsrc : fsFind fs src = some (c, m)) (hdst : fsFind fs dst = some (c2, m2))
    (hne : hash c ≠ hash c2) :
    copy_on_change hash fs src dst = .ok (fsSet fs dst (c, m), true) := by
  unfold copy_on_change
  rw [hsrc]
  simp only []
  rw [hdst]
  simp [hne]

/-- An immediately repeated `_copy_on_change` copies nothing. -/
theorem copy_repeat_does_nothing (hash : List Nat → List Nat) (fs : FStore)
    (src dst : String) (fs2 : FStore) (b : Bool)
    (h : copy_on_change hash fs src dst = .ok (fs2, b)) :
    copy_on_change hash fs2 src dst = .ok (fs2, false) := by
  cases hsrc : fsFind fs src with
  | none => rw [copy_error_when_no_source hash fs src dst hsrc] at h; cases h
  | some cm =>
    obtain ⟨c, m⟩ := cm
    cases hdst : fsFind fs dst with
    | none =>
      rw [copy_writes_when_missing hash fs src dst c m hsrc hdst] at h
      cases h
      by_cases hsd : src = dst
      · subst hsd
        rw [hsrc] at hdst
        cases hdst
      · exact copy_skips_when_hash_equal hash _ src dst c m c m
          (by rw [fsFind_fsSet_other fs dst src (c, m) hsd]; exact hsrc)
          (fsFind_fsSet_same fs dst (c, m)) rfl
    | some cm2 =>
      obtain ⟨c2, m2⟩ := cm2
      by_cases heq : hash c = hash c2
      · rw [copy_skips_when_hash_equal hash fs src dst c m c2 m2 hsrc hdst heq] at h
        cases h
        exact copy_skips_when_hash_equal hash fs src dst c m c2 m2 hsrc hdst heq
      · rw [copy_writes_when_hash_differs hash fs src dst c m c2 m2 hsrc hdst heq] at h
        cases h
        by_cases hsd : src = dst
        · subst hsd
          rw [hsrc] at hdst
          injection hdst with hcd
          injection hcd with hc hm
          exact absurd (hc ▸ rfl) heq
        · exact copy_skips_when_hash_equal hash _ src dst c m c m
            (by rw [fsFind_fsSet_other fs dst src (c, m) hsd]; exact hsrc)
            (fsFind_fsSet_same fs dst (c, m)) rfl

/-- Claim C10: `_copy_on_change` is idempotent — an existing destination
whose digest equals the source's is left untouched with no write; otherwise
the destination is overwritten so the contents are equal afterwards; a
missing source raises `BuildException`; and an immediately repeated call
copies nothing. -/
theorem C10_copy_on_change_idempotent (hash : List Nat → List Nat)
    (fs : FStore) (src dst : String) :
    (fsFind fs src = none →
      copy_on_change hash fs src dst =
        .error (.buildException "No source file to copy")) ∧
    (∀ c m c2 m2, fsFind fs src = some (c, m) → fsFind fs dst = some (c2, m2) →
      hash c = hash c2 → copy_on_change hash fs src dst = .ok (fs, false)) ∧
    (∀ c m, fsFind fs src = some (c, m) →
      (fsFind fs dst = none ∨
        ∃ c2 m2, fsFind fs dst = some (c2, m2) ∧ hash c ≠ hash c2) →
      copy_on_change hash fs src dst = .ok (fsSet fs dst (c, m), true) ∧
        fsFind (fsSet fs dst (c, m)) dst = some (c, m)) ∧
    (∀ fs2 b, copy_on_change hash fs src dst = .ok (fs2, b) →
      copy_on_change hash fs2 src dst = .ok (fs2, false)) := by
  refine ⟨copy_error_when_no_source hash fs src dst, ?_, ?_, ?_⟩
  · intro c m c2 m2 hsrc hdst heq
    exact copy_skips_when_hash_equal hash fs src dst c m c2 m2 hsrc hdst heq
  · intro c m hsrc hd
    refine ⟨?_, fsFind_fsSet_same fs dst (c, m)⟩
    rcases hd with hdst | ⟨c2, m2, hdst, hne⟩
    · exact copy_writes_when_missing hash fs src dst c m hsrc hdst
    · exact copy_writes_when_hash_differs hash fs src dst c m c2 m2 hsrc hdst hne
  · intro fs2 b h
    exact copy_repeat_does_nothing hash fs src dst fs2 b h

/-- Witness for C10 at a concrete store: the first copy writes the
destination, the immediately repeated call copies nothing. -/
theorem C10_copy_on_change_idempotent_witness :
    copy_on_change hashEx fsEx "isam.h" "workisam.h" =
      .ok (fsSet fsEx "workisam.h" ([104, 105], 6), true) ∧
    copy_on_change hashEx (fsSet fsEx "workisam.h" ([104, 105], 6))
        "isam.h" "workisam.h" =
      .ok (fsSet fsEx "workisam.h" ([104, 105], 6), false) := by
  have h1 := ((C10_copy_on_change_idempotent hashEx fsEx "isam.h"
    "workisam.h").2.2.1 [104, 105] 6 rfl (Or.inl rfl)).1
  refine ⟨h1, ?_⟩
  exact (C10_copy_on_change_idempotent hashEx fsEx "isam.h" "workisam.h").2.2.2
    (fsSet fsEx "workisam.h" ([104, 105], 6)) true h1

/-- Encoding `natToLE` always emits exactly the requested number of bytes. -/
theorem natToLE_length (w : Nat) : ∀ n, (natToLE w n).length = w := by
  induction w with
  | zero => intro n; rfl
  | succ w ih =>
    intro n
    simp [natToLE, ih]

/-- Little-endian decoding inverts encoding for values within range. -/
theorem leToNat_natToLE (w : Nat) : ∀ n, n < 256 ^ w → leToNat (natToLE w n) = n := by
  induction w with
  | zero =>
    intro n h
    simp only [Nat.pow_zero, Nat.lt_one_iff] at h
    simp [natToLE, leToNat, h]
  | succ w ih =>
    intro n h
    have hdiv : n / 256 < 256 ^ w := by
      have h2 : n < 256 ^ w * 256 := by rw [Nat.pow_succ] at h; omega
      exact Nat.div_lt_of_lt_mul (by omega)
    simp only [natToLE, leToNat]
    rw [ih (n / 256) hdiv]
    omega

/-- Dropping the pad byte skips any run of leading pads in reverse order. -/
theorem dropWhile_pad_replicate (t : List Nat) :
    ∀ k, List.dropWhile (fun b => b == 32) (List.replicate k 32 ++ t) =
      List.dropWhile (fun b => b == 32) t := by
  intro k
  induction k with
  | zero => simp
  | succ k ih => simp [List.replicate_succ, List.dropWhile_cons, ih]

/-- A byte list with no trailing pad byte survives reverse-side `dropWhile`. -/
theorem dropWhile_pad_of_noTrail (s : List Nat) (h : noTrailSpace s = true) :
    List.dropWhile (fun b => b == 32) s.reverse = s.reverse := by
  unfold noTrailSpace at h
  cases hr : s.reverse with
  | nil => simp
  | cons b t =>
    rw [hr] at h
    simp only [bne_iff_ne, ne_eq] at h
    simp [List.dropWhile_cons, h]

/-- Unpacking inverts packing for even-length digit lists with digits
below sixteen. -/
theorem unpackBCD_packBCD : ∀ ds : List Nat, (∀ d ∈ ds, d < 10) →
    ds.length % 2 = 0 → unpackBCD (packBCD ds) = ds
  | [], _, _ => rfl
  | [d], _, he => by simp at he
  | d1 :: d2 :: rest, hd, he => by
    have h2 : d2 < 10 := hd d2 (by simp)
    have ih := unpackBCD_packBCD rest (fun d hdm => hd d (by simp [hdm]))
      (by simp only [List.length_cons] at he; omega)
    simp only [packBCD, unpackBCD, ih, List.cons.injEq, and_true]
    constructor
    · omega
    · omega

/-- Packed decimals occupy one byte per digit pair. -/
theorem packBCD_length : ∀ ds : List Nat, (packBCD ds).length = (ds.length + 1) / 2
  | [] => rfl
  | [_] => by simp [packBCD]
  | _ :: _ :: rest => by
    simp only [packBCD, List.length_cons, packBCD_length rest]
    omega

/-- A well-formed field encodes to exactly its column's width. -/
theorem encodeField_length (c : Column) (v : Value)
    (h : wellFormedField c v = true) : (encodeField c v).length = c.width := by
  rcases c with ⟨cname, w, kind⟩
  cases kind <;> cases v <;> simp only [wellFormedField] at h <;> simp at h
  · rename_i s
    obtain ⟨hle, htr⟩ := h
    simp only [encodeField, List.length_append, List.length_take,
      List.length_replicate]
    omega
  · rename_i n
    simp [encodeField, natToLE_length]
  · rename_i ds
    obtain ⟨hlen, hdig⟩ := h
    simp only [encodeField, packBCD_length]
    omega

/-- Decoding a field inverts encoding on well-formed values. -/
theorem decodeField_encodeField (c : Column) (v : Value)
    (h : wellFormedField c v = true) : decodeField c (encodeField c v) = v := by
  rcases c with ⟨cname, w, kind⟩
  cases kind <;> cases v <;> simp only [wellFormedField] at h <;> simp at h
  · rename_i s
    obtain ⟨hle, htr⟩ := h
    simp only [encodeField, decodeField]
    rw [List.take_of_length_le hle, List.reverse_append, List.reverse_replicate,
      dropWhile_pad_replicate, dropWhile_pad_of_noTrail s htr,
      List.reverse_reverse]
  · rename_i n
    simp [encodeField, decodeField, leToNat_natToLE w n h]
  · rename_i ds
    obtain ⟨hlen, hdig⟩ := h
    simp only [encodeField, decodeField]
    rw [unpackBCD_packBCD ds hdig (by omega)]

/-- Decoding `decodeRecord` always yields one value per column. -/
theorem decodeRecord_length : ∀ (cols : List Column) (buf : List Nat),
    (decodeRecord cols buf).length = cols.length
  | [], _ => rfl
  | _ :: cs, buf => by
    simp [decodeRecord, decodeRecord_length cs]

/-- Decoding inverts encoding for well-formed record assignments. -/
theorem decodeRecord_encodeRecord : ∀ (cols : List Column) (vs : List Value),
    wellFormedRecord cols vs = true →
    decodeRecord cols (encodeRecord cols vs) = vs
  | [], [], _ => rfl
  | [], _ :: _, h => by simp [wellFormedRecord] at h
  | _ :: _, [], h => by simp [wellFormedRecord] at h
  | c :: cs, v :: vs, h => by
    simp only [wellFormedRecord, Bool.and_eq_true] at h
    obtain ⟨hf, hr⟩ := h
    simp only [encodeRecord, decodeRecord]
    rw [List.take_left' (encodeField_length c v hf),
      List.drop_left' (encodeField_length c v hf),
      decodeField_encodeField c v hf,
      decodeRecord_encodeRecord cs vs hr]

/-- Claim C2: for every frozen TableDefinition, decoding the buffer produced
by encoding a well-formed value assignment yields the assignment back, and
decoding is total over any correctly-sized buffer (one value per column). -/
theorem C2_decode_encode_roundtrip (t : TableDefinition) :
    (∀ vs, wellFormedRecord t.columns vs = true → decode t (encode t vs) = vs) ∧
    (∀ buf, buf.length = recordLength t.columns →
      (decode t buf).length = t.columns.length) := by
  constructor
  · intro vs h
    exact decodeRecord_encodeRecord t.columns vs h
  · intro buf _
    exact decodeRecord_length t.columns buf

/-- Witness for C2 at a concrete frozen table and assignment: the round trip
reproduces the values and decoding a correctly-sized buffer is total. -/
theorem C2_decode_encode_roundtrip_witness :
    decode tableEx (encode tableEx valuesEx) = valuesEx ∧
    (decode tableEx (List.replicate 6 0)).length = tableEx.columns.length := by
  constructor
  · exact (C2_decode_encode_roundtrip tableEx).1 valuesEx (by decide)
  · exact (C2_decode_encode_roundtrip tableEx).2 (List.replicate 6 0) (by decide)

/-- A keyed read that fails fails with NoRecordError and returns the cursor
unchanged. -/
theorem readKeyed_error (c : ISAMcursor) (p : List Nat → Bool) (e : ReadErr)
    (c2 : ISAMcursor) (h : readKeyed c p = (.error e, c2)) :
    e = .noRecord ∧ c2 = c := by
  unfold readKeyed at h
  cases hf : c.rows.findIdx? p with
  | some i => rw [hf] at h; injection h with h1 h2; cases h1
  | none =>
    rw [hf] at h
    injection h with h1 h2
    injection h1 with h1a
    exact ⟨h1a.symm, h2.symm⟩

/-- A keyed read that succeeds decodes the matching row's buffer and moves
the position to that row. -/
theorem readKeyed_ok (c : ISAMcursor) (p : List Nat → Bool) (r : List Value)
    (c2 : ISAMcursor) (h : readKeyed c p = (.ok r, c2)) :
    ∃ i, c.rows.findIdx? p = some i ∧
      r = decodeRecord c.columns (c.rows.getD i []) ∧ c2.pos = some i := by
  unfold readKeyed at h
  cases hf : c.rows.findIdx? p with
  | none => rw [hf] at h; injection h with h1 h2; cases h1
  | some i =>
    rw [hf] at h
    injection h with h1 h2
    injection h1 with h1a
    exact ⟨i, rfl, h1a.symm, by rw [← h2]⟩

/-- A continuation read that fails fails with NoRecordError and returns the
cursor unchanged. -/
theorem readCont_error (c : ISAMcursor) (e : ReadErr) (c2 : ISAMcursor)
    (h : readCont c = (.error e, c2)) : e = .noRecord ∧ c2 = c := by
  unfold readCont at h
  by_cases hlt : nextIdx c < c.rows.length
  · rw [if_pos hlt] at h; injection h with h1 h2; cases h1
  · rw [if_neg hlt] at h
    injection h with h1 h2
    injection h1 with h1a
    exact ⟨h1a.symm, h2.symm⟩

/-- A continuation read that succeeds decodes the next row's buffer and
advances the position by one. -/
theorem readCont_ok (c : ISAMcursor) (r : List Value) (c2 : ISAMcursor)
    (i : Nat) (hp : c.pos = some i) (h : readCont c = (.ok r, c2)) :
    c2.pos = some (i + 1) ∧
      r = decodeRecord c.columns (c.rows.getD (i + 1) []) := by
  have hn : nextIdx c = i + 1 := by unfold nextIdx; rw [hp]
  unfold readCont at h
  rw [hn] at h
  by_cases hlt : i + 1 < c.rows.length
  · rw [if_pos hlt] at h
    injection h with h1 h2
    injection h1 with h1a
    exact ⟨by rw [← h2], h1a.symm⟩
  · rw [if_neg hlt] at h; injection h with h1 h2; cases h1

/-- A same-mode read at a held in-range position succeeds without moving. -/
theorem readSame_ok (c : ISAMcursor) (i : Nat) (hp : c.pos = some i)
    (hlt : i < c.rows.length) :
    readSame c = (.ok (decodeRecord c.columns (c.rows.getD i [])), c) := by
  unfold readSame
  rw [hp]
  simp only []
  rw [if_pos hlt]

/-- Claim C3: a read that finds no matching row fails with NoRecordError and
leaves the cursor unchanged — so a subsequent read at the prior position
still succeeds — while a successful read decodes the buffer and advances the
position; both for keyed reads and for continuation reads issued with no
index name. -/
theorem C3_read_no_record :
    (∀ c p e c2, readKeyed c p = (.error e, c2) → e = .noRecord ∧ c2 = c) ∧
    (∀ c p r c2, readKeyed c p = (.ok r, c2) →
      ∃ i, c.rows.findIdx? p = some i ∧
        r = decodeRecord c.columns (c.rows.getD i []) ∧ c2.pos = some i) ∧
    (∀ c e c2, readCont c = (.error e, c2) → e = .noRecord ∧ c2 = c) ∧
    (∀ c r c2 i, c.pos = some i → readCont c = (.ok r, c2) →
      c2.pos = some (i + 1) ∧
        r = decodeRecord c.columns (c.rows.getD (i + 1) [])) ∧
    (∀ c e c2, readCont c = (.error e, c2) → readSame c2 = readSame c) ∧
    (∀ c i, c.pos = some i → i < c.rows.length →
      readSame c = (.ok (decodeRecord c.columns (c.rows.getD i [])), c)) := by
  refine ⟨readKeyed_error, readKeyed_ok, readCont_error, ?_, ?_, readSame_ok⟩
  · intro c r c2 i hp h
    exact readCont_ok c r c2 i hp h
  · intro c e c2 h
    rw [(readCont_error c e c2 h).2]

/-- Witness for C3 at a concrete one-row cursor positioned on its last row:
the continuation read past the end fails with NoRecordError, leaves the
cursor unchanged, and the same-mode read at the prior position still
succeeds. -/
theorem C3_read_no_record_witness :
    (ReadErr.noRecord = ReadErr.noRecord ∧ cursorEx = cursorEx) ∧
    readSame cursorEx = readSame cursorEx ∧
    readSame cursorEx =
      (.ok (decodeRecord cursorEx.columns (cursorEx.rows.getD 0 [])), cursorEx) :=
  ⟨C3_read_no_record.2.2.1 cursorEx .noRecord cursorEx rfl,
   C3_read_no_record.2.2.2.2.1 cursorEx .noRecord cursorEx rfl,
   C3_read_no_record.2.2.2.2.2 cursorEx 0 rfl (by decide)⟩

end PyIsam
